import Mathlib

/-!
Verification of the SnapPosition capture-and-aggregation pipeline.

Shallow embedding of `src/processor.py` (the SpatialAggregator and HesitationRanker)
and `src/logger.py` (EventCapture state machine).

Modelling conventions:
* Python floats (timestamps, speeds, dwell times, numpy float64 grid cells)
  are modelled as `ℚ`; pixel coordinates as `ℤ`.
* `np.sqrt` (used for Euclidean distance and the standard deviation) is
  irrational in general, so every definition that needs it takes an abstract
  `sqrtF : ℚ → ℚ` parameter; no verified property depends on its value beyond
  explicitly stated hypotheses such as nonnegativity.
* Python's `int(a / b)` on integer inputs (truncation toward zero of the float
  quotient) is modelled as `Int.tdiv`.
* numpy 2-D arrays are `List (List ℚ)` in row-major order.  `np.argsort`
  with the default kind guarantees only a permutation of the indices that is
  ascending by value: the default introsort is not stable, so the order of
  equal values is unspecified for arrays over 16 elements (below that numpy
  runs a stable insertion sort).  The ranker is therefore parameterized by
  the argsort implementation, constrained only by that contract
  (`IsArgsortOf`); the concrete `argsort` realization reproduces the
  deterministic small-array regime and is used only to evaluate the code on
  small concrete grids.
-/

/-- A mouse event record as built by `MouseLogger._on_move` / `_on_click`:
keys `x`, `y`, `speed`, `click`, `timestamp`. -/
structure MouseEvent where
  x : Int
  y : Int
  speed : ℚ
  click : Bool
  timestamp : ℚ
deriving Repr, DecidableEq, Inhabited

/-- Row-major 2-D grid of float cells (numpy array of float64). -/
abbrev Grid := List (List ℚ)

/-- Cell read `g[r, c]` (0 outside the allocated shape; the program only
reads allocated cells). -/
def gridGet (g : Grid) (r c : ℕ) : ℚ := (g.getD r []).getD c 0

/-- In-place update `g[r, c] += d`. -/
def gridAdd (g : Grid) (r c : ℕ) (d : ℚ) : Grid :=
  g.set r ((g.getD r []).set c (gridGet g r c + d))

/-- Sum `np.sum` over all cells of a grid. -/
def gridSum (g : Grid) : ℚ := (g.map List.sum).sum

/-- Zero grid `np.zeros((rows, cols))`. -/
def zeroGrid (rows cols : ℕ) : Grid := List.replicate rows (List.replicate cols 0)

/-- Grid `g` has `rows` rows each of length `cols`. -/
def GridDims (g : Grid) (rows cols : ℕ) : Prop :=
  g.length = rows ∧ ∀ row ∈ g, row.length = cols

/-- Every cell of `g` is nonnegative. -/
def GridNonneg (g : Grid) : Prop :=
  ∀ row ∈ g, ∀ v ∈ row, 0 ≤ v

/-- Summary statistics dictionary built by `_calculate_stats` /
`_empty_stats` in `src/processor.py`. -/
structure Stats where
  total_events : ℕ
  total_clicks : ℕ
  avg_speed : ℚ
  max_speed : ℚ
  min_speed : ℚ
  speed_std : ℚ
  duration : ℚ
  distance_traveled : ℚ
  acceleration_bursts : ℕ
deriving Repr, DecidableEq

/-- Embeds `_empty_stats` from `src/processor.py`. -/
def _empty_stats : Stats :=
  { total_events := 0, total_clicks := 0, avg_speed := 0, max_speed := 0,
    min_speed := 0, speed_std := 0, duration := 0, distance_traveled := 0,
    acceleration_bursts := 0 }

/-- Embeds `_calculate_stats` from `src/processor.py`.  `np.mean`, `np.max`,
`np.min` are guarded by the `len > 0` checks of the source; `np.std` is
`sqrtF` of the population variance. -/
def _calculate_stats (sqrtF : ℚ → ℚ) (data : List MouseEvent) (speeds : List ℚ) : Stats :=
  match data with
  | [] => _empty_stats
  | _ :: _ =>
    let total_clicks := (data.filter (·.click)).length
    let total_distance := (data.zip data.tail).foldl
      (fun acc p =>
        acc + sqrtF ((((p.2.x - p.1.x) * (p.2.x - p.1.x)
          + (p.2.y - p.1.y) * (p.2.y - p.1.y) : Int) : ℚ))) 0
    let duration := if 2 ≤ data.length then
        ((data.getLast?).getD default).timestamp - ((data.head?).getD default).timestamp
      else 0
    let n : ℚ := (speeds.length : ℚ)
    let mean := speeds.sum / n
    let variance := ((speeds.map (fun s => (s - mean) * (s - mean))).sum) / n
    { total_events := data.length,
      total_clicks := total_clicks,
      avg_speed := if 0 < speeds.length then mean else 0,
      max_speed := if 0 < speeds.length then (speeds.max?).getD 0 else 0,
      min_speed := if 0 < speeds.length then (speeds.min?).getD 0 else 0,
      speed_std := if 0 < speeds.length then sqrtF variance else 0,
      duration := duration,
      distance_traveled := total_distance,
      acceleration_bursts := 0 }

/-- Embeds `_detect_acceleration` from `src/processor.py`: indices `i ≥ 1` with
`|speed_i - speed_(i-1)| > threshold`. -/
def _detect_acceleration (data : List MouseEvent) (threshold : ℚ) : List ℕ :=
  ((List.range data.length).drop 1).filter
    (fun i => |(data.getD i default).speed - (data.getD (i - 1) default).speed| > threshold)

/-- State threaded through the event loop of `process_data`
(lines 57-88 of `src/processor.py`). -/
structure LoopState where
  heatmap : Grid
  hesitation_map : Grid
  click_positions : List (Int × Int)
  path : List (Int × Int)
  prev_timestamp : Option ℚ
deriving Repr

/-- The clamped grid column of event coordinate `x`:
`max(0, min(int((x - min_x) / grid_size), grid_width - 1))`. -/
def gridIndex (coord mincoord grid_size : Int) (dim : ℕ) : ℕ :=
  (max 0 (min (Int.tdiv (coord - mincoord) grid_size) ((dim : Int) - 1))).toNat

/-- One iteration of the `for event in data` loop of `process_data`. -/
def processStep (min_x min_y grid_size : Int) (grid_width grid_height : ℕ)
    (s : LoopState) (e : MouseEvent) : LoopState :=
  let grid_x := gridIndex e.x min_x grid_size grid_width
  let grid_y := gridIndex e.y min_y grid_size grid_height
  let heatmap := gridAdd s.heatmap grid_y grid_x 1
  let hesitation_map :=
    match s.prev_timestamp with
    | none => s.hesitation_map
    | some prev =>
      if e.speed < 100 then gridAdd s.hesitation_map grid_y grid_x (e.timestamp - prev)
      else s.hesitation_map
  { heatmap := heatmap,
    hesitation_map := hesitation_map,
    click_positions := s.click_positions ++ (if e.click then [(e.x, e.y)] else []),
    path := s.path ++ [(e.x, e.y)],
    prev_timestamp := some e.timestamp }

/-- The whole event loop of `process_data`. -/
def processLoop (min_x min_y grid_size : Int) (grid_width grid_height : ℕ)
    (data : List MouseEvent) (s : LoopState) : LoopState :=
  data.foldl (processStep min_x min_y grid_size grid_width grid_height) s

/-- Aggregate result dictionary returned by `process_data`. -/
structure ProcessResult where
  heatmap : Grid
  hesitation_map : Grid
  speed_data : List ℚ
  click_positions : List (Int × Int)
  path : List (Int × Int)
  stats : Stats
  grid_size : Int
  bounds : Int × Int × Int × Int
deriving Repr

/-- Embeds `process_data` from `src/processor.py`.  The empty numpy arrays of the
empty branch are the empty grid `[]`. -/
def process_data (sqrtF : ℚ → ℚ) (data : List MouseEvent) (grid_size : Int) : ProcessResult :=
  match data with
  | [] =>
    { heatmap := [], hesitation_map := [], speed_data := [],
      click_positions := [], path := [], stats := _empty_stats,
      grid_size := grid_size, bounds := (0, 0, 1920, 1080) }
  | _ :: _ =>
    let x_coords := data.map (·.x)
    let y_coords := data.map (·.y)
    let speeds := data.map (·.speed)
    let padding : Int := 50
    let min_x := max 0 ((x_coords.min?).getD 0 - padding)
    let min_y := max 0 ((y_coords.min?).getD 0 - padding)
    let max_x := (x_coords.max?).getD 0 + padding
    let max_y := (y_coords.max?).getD 0 + padding
    let grid_width : ℕ := (max 1 (Int.tdiv (max_x - min_x) grid_size + 1)).toNat
    let grid_height : ℕ := (max 1 (Int.tdiv (max_y - min_y) grid_size + 1)).toNat
    let s0 : LoopState :=
      { heatmap := zeroGrid grid_height grid_width,
        hesitation_map := zeroGrid grid_height grid_width,
        click_positions := [], path := [], prev_timestamp := none }
    let s := processLoop min_x min_y grid_size grid_width grid_height data s0
    let stats0 := _calculate_stats sqrtF data speeds
    let acceleration_events := _detect_acceleration data 500
    let stats := { stats0 with acceleration_bursts := acceleration_events.length }
    { heatmap := s.heatmap,
      hesitation_map := s.hesitation_map,
      speed_data := speeds,
      click_positions := s.click_positions,
      path := s.path,
      stats := stats,
      grid_size := grid_size,
      bounds := (min_x, min_y, max_x, max_y) }

/-- Ascending comparison on indices into `flat` with value ties resolved in
ascending index order: the order `np.argsort` returns in its deterministic
small-array regime (16 elements or fewer, stable insertion sort). -/
def ascIdxLe (flat : List ℚ) (i j : ℕ) : Prop :=
  flat.getD i 0 < flat.getD j 0 ∨ (flat.getD i 0 = flat.getD j 0 ∧ i ≤ j)

instance (flat : List ℚ) : DecidableRel (ascIdxLe flat) := fun _ _ =>
  instDecidableOr

/-- Concrete realization of `np.argsort` valid in the small-array regime
(16 elements or fewer, where numpy runs a stable insertion sort): the
comparison is a linear order on indices, so this is the unique ascending
stable permutation.  Used only to evaluate the code on small concrete
grids; general grids go through the `IsArgsortOf` contract instead. -/
def argsort (l : List ℚ) : List ℕ :=
  (List.range l.length).insertionSort (ascIdxLe l)

/-- The full contract of `np.argsort` under the default kind: the result is
some permutation of all flat indices that is ascending by value.  Nothing
more — the default introsort is documented as not stable, so the relative
order of equal values is unspecified (observable on arrays over 16
elements). -/
def IsArgsortOf (flat : List ℚ) (idxs : List ℕ) : Prop :=
  idxs.Perm (List.range flat.length) ∧
  List.Sorted (fun i j => flat.getD i 0 ≤ flat.getD j 0) idxs

/-- Embeds `get_hesitation_zones` from `src/processor.py`, as a function of
the `hesitation_map` entry of the processed-data dictionary.
`np.unravel_index` on shape `(rows, cols)` is `idx / cols, idx % cols`.
The external `np.argsort` call is the parameter `argsortF` (its admissible
behaviours are `IsArgsortOf`; on grids of at most 16 cells it is exactly
`argsort`). -/
def get_hesitation_zones (argsortF : List ℚ → List ℕ) (hesitation_map : Grid)
    (top_n : ℕ) : List (ℕ × ℕ × ℚ) :=
  if (hesitation_map.flatten).length = 0 then []
  else
    let flat := hesitation_map.flatten
    let cols := (hesitation_map.headD []).length
    let flat_indices := ((argsortF flat).reverse).take top_n
    flat_indices.foldl
      (fun zones idx =>
        let y := idx / cols
        let x := idx % cols
        let dwell := flat.getD idx 0
        if 0 < dwell then zones ++ [(x, y, dwell)] else zones) []

/-- Modelled from the spec (HesitationRanker, claim C3 as stated): flatten
the grid, sort descending by dwell value with ties broken by ASCENDING
flattened index, take the first `top_n`, filter out zero dwell, map each
index back to `(gridX, gridY)`. -/
def hesitation_zones_claimed (g : Grid) (top_n : ℕ) : List (ℕ × ℕ × ℚ) :=
  if (g.flatten).length = 0 then []
  else
    let flat := g.flatten
    let cols := (g.headD []).length
    let idxs := (List.range flat.length).insertionSort
      (fun i j => flat.getD j 0 < flat.getD i 0 ∨ (flat.getD i 0 = flat.getD j 0 ∧ i ≤ j))
    ((idxs.take top_n).filter (fun i => decide (0 < flat.getD i 0))).map
      (fun i => (i % cols, i / cols, flat.getD i 0))

/-- Total dwell that the event loop adds to the hesitation grid, given the
`prev_timestamp` in force when the remaining events begin: the sum, over
consecutive pairs inside the stream whose arriving event has speed `< 100`,
of the timestamp gap.  No term crosses a stream (aggregation-call) boundary. -/
def dwellFrom : Option ℚ → List MouseEvent → ℚ
  | _, [] => 0
  | none, e :: rest => dwellFrom (some e.timestamp) rest
  | some t, e :: rest =>
    (if e.speed < 100 then e.timestamp - t else 0) + dwellFrom (some e.timestamp) rest

/-- The mutable fields of `MouseLogger` (`src/logger.py`).  The pynput
listener object itself is external; `is_running` mirrors `_is_running`. -/
structure LoggerState where
  data : List MouseEvent
  is_running : Bool
  sample_rate : ℚ
  last_sample_time : ℚ
  last_position : Int × Int
  last_timestamp : ℚ
deriving Repr, DecidableEq

namespace MouseLogger

/-- Embeds `MouseLogger.__init__` with the given `sample_rate` (default 0.05). -/
def init (sample_rate : ℚ) : LoggerState :=
  { data := [], is_running := false, sample_rate := sample_rate,
    last_sample_time := 0, last_position := (0, 0), last_timestamp := 0 }

/-- Python's `round(q, 2)` applied to a speed value. -/
def round2 (q : ℚ) : ℚ := ((round (q * 100) : ℤ) : ℚ) / 100

/-- Embeds `MouseLogger._calculate_speed`.  `_last_timestamp == 0` is the
sentinel for "no prior accepted sample". -/
def _calculate_speed (sqrtF : ℚ → ℚ) (s : LoggerState) (x y : Int) (timestamp : ℚ) : ℚ :=
  if s.last_timestamp = 0 then 0
  else
    let time_delta := timestamp - s.last_timestamp
    if time_delta ≤ 0 then 0
    else
      let dx := x - s.last_position.1
      let dy := y - s.last_position.2
      sqrtF ((dx * dx + dy * dy : Int) : ℚ) / time_delta

/-- Embeds `MouseLogger._on_move`; `current_time` is the value of `time.time()`
observed by the handler. -/
def _on_move (sqrtF : ℚ → ℚ) (s : LoggerState) (x y : Int) (current_time : ℚ) : LoggerState :=
  if current_time - s.last_sample_time < s.sample_rate then s
  else
    let speed := round2 (_calculate_speed sqrtF s x y current_time)
    { s with
      data := s.data ++ [{ x := x, y := y, speed := speed, click := false,
                           timestamp := current_time }],
      last_position := (x, y),
      last_timestamp := current_time,
      last_sample_time := current_time }

/-- Embeds `MouseLogger._on_click`; the `button` argument is unused by the source. -/
def _on_click (sqrtF : ℚ → ℚ) (s : LoggerState) (x y : Int) (pressed : Bool)
    (current_time : ℚ) : LoggerState :=
  if !pressed then s
  else
    let speed := round2 (_calculate_speed sqrtF s x y current_time)
    { s with
      data := s.data ++ [{ x := x, y := y, speed := speed, click := true,
                           timestamp := current_time }],
      last_position := (x, y),
      last_timestamp := current_time }

/-- Embeds `MouseLogger.start`, restricted to its effect on the logger's own
fields (the successful-listener-install path). -/
def start (s : LoggerState) : LoggerState :=
  if s.is_running then s
  else { s with is_running := true, last_timestamp := 0, last_sample_time := 0 }

/-- Modelled from the spec: the platform input hook (`mouse.Listener.start()`
of the external pynput library) may fail with CaptureUnavailable; `hook_ok =
false` means the install raises.  The source sets `_is_running := True` and
resets the timing fields *before* attempting the install and catches nothing,
so on failure the exception escapes carrying the already-mutated state, which
`.error` wraps. -/
def start_with_hook (s : LoggerState) (hook_ok : Bool) : Except LoggerState LoggerState :=
  if s.is_running then .ok s
  else
    let s' := { s with is_running := true, last_timestamp := 0, last_sample_time := 0 }
    if hook_ok then .ok s' else .error s'

/-- Embeds `MouseLogger.is_running`. -/
def is_running (s : LoggerState) : Bool := s.is_running

end MouseLogger

/-! ### Grid helper lemmas -/

theorem sum_set_rat (l : List ℚ) (n : ℕ) (a : ℚ) (hn : n < l.length) :
    (l.set n a).sum = l.sum - l.getD n 0 + a := by
  induction l generalizing n with
  | nil => simp at hn
  | cons h t ih =>
    cases n with
    | zero => simp; ring
    | succ m =>
      simp only [List.set_cons_succ, List.sum_cons, List.getD_cons_succ]
      rw [ih m (by simpa using hn)]
      ring

theorem getD_mem_of_lt {α : Type} (l : List α) (d : α) {n : ℕ} (hn : n < l.length) :
    l.getD n d ∈ l := by
  rw [List.getD_eq_getElem l d hn]
  exact List.getElem_mem hn

theorem gridAdd_dims {g : Grid} {rows cols : ℕ} (r c : ℕ) (d : ℚ)
    (h : GridDims g rows cols) (hr : r < rows) :
    GridDims (gridAdd g r c d) rows cols := by
  obtain ⟨hlen, hrow⟩ := h
  refine ⟨by simpa [gridAdd] using hlen, ?_⟩
  intro row hmem
  rcases List.mem_or_eq_of_mem_set hmem with hmem' | rfl
  · exact hrow _ hmem'
  · have hrg : r < g.length := by omega
    have hmemr : g.getD r [] ∈ g := getD_mem_of_lt g [] hrg
    simpa [List.length_set] using hrow _ hmemr

theorem gridSum_gridAdd {g : Grid} {rows cols : ℕ} (r c : ℕ) (d : ℚ)
    (h : GridDims g rows cols) (hr : r < rows) (hc : c < cols) :
    gridSum (gridAdd g r c d) = gridSum g + d := by
  obtain ⟨hlen, hrow⟩ := h
  have hrg : r < g.length := by omega
  have hmemr : g.getD r [] ∈ g := getD_mem_of_lt g [] hrg
  have hclen : c < (g.getD r []).length := by rw [hrow _ hmemr]; exact hc
  unfold gridSum gridAdd
  rw [List.map_set, sum_set_rat _ r _ (by simpa using hrg),
    sum_set_rat _ c _ hclen]
  have hmap : (g.map List.sum).getD r 0 = (g.getD r []).sum := by
    rw [List.getD_eq_getElem _ _ (by simpa using hrg),
      List.getD_eq_getElem _ _ hrg, List.getElem_map]
  rw [hmap]
  unfold gridGet
  ring

theorem zeroGrid_dims (rows cols : ℕ) : GridDims (zeroGrid rows cols) rows cols := by
  refine ⟨by simp [zeroGrid], ?_⟩
  intro row h
  rw [List.eq_of_mem_replicate h]
  simp

theorem zeroGrid_sum (rows cols : ℕ) : gridSum (zeroGrid rows cols) = 0 := by
  simp [zeroGrid, gridSum, List.map_replicate]

theorem gridAdd_nonneg {g : Grid} {r c : ℕ} {d : ℚ}
    (h : GridNonneg g) (hd : 0 ≤ d) : GridNonneg (gridAdd g r c d) := by
  have hget : ∀ (l : List ℚ), (∀ v ∈ l, 0 ≤ v) → ∀ (k : ℕ), 0 ≤ l.getD k 0 := by
    intro l hl k
    by_cases hk : k < l.length
    · exact hl _ (getD_mem_of_lt l 0 hk)
    · rw [List.getD_eq_default _ _ (by omega)]
  have hrow0 : ∀ v ∈ g.getD r [], 0 ≤ v := by
    intro v hv
    by_cases hrg : r < g.length
    · exact h _ (getD_mem_of_lt g [] hrg) _ hv
    · rw [List.getD_eq_default _ _ (by omega)] at hv
      simp at hv
  intro row hmem v hv
  rcases List.mem_or_eq_of_mem_set hmem with hmem' | rfl
  · exact h _ hmem' _ hv
  · rcases List.mem_or_eq_of_mem_set hv with hv' | rfl
    · exact hrow0 _ hv'
    · have h0 : 0 ≤ gridGet g r c := hget _ hrow0 c
      linarith

theorem gridIndex_lt (coord mincoord grid_size : Int) (dim : ℕ) (hdim : 1 ≤ dim) :
    gridIndex coord mincoord grid_size dim < dim := by
  unfold gridIndex
  generalize Int.tdiv (coord - mincoord) grid_size = q
  omega

theorem one_le_toNat_max_one (x : Int) : 1 ≤ (max 1 x).toNat := by
  omega

/-! ### Event-loop lemmas -/

theorem processLoop_path (mx my gs : Int) (gw gh : ℕ) (data : List MouseEvent)
    (s : LoopState) :
    (processLoop mx my gs gw gh data s).path = s.path ++ data.map (fun e => (e.x, e.y)) := by
  induction data generalizing s with
  | nil => simp [processLoop]
  | cons e rest ih =>
    simp only [processLoop, List.foldl_cons] at *
    rw [ih]
    simp [processStep]

theorem processLoop_clicks (mx my gs : Int) (gw gh : ℕ) (data : List MouseEvent)
    (s : LoopState) :
    (processLoop mx my gs gw gh data s).click_positions
      = s.click_positions ++ (data.filter (·.click)).map (fun e => (e.x, e.y)) := by
  induction data generalizing s with
  | nil => simp [processLoop]
  | cons e rest ih =>
    simp only [processLoop, List.foldl_cons] at *
    rw [ih]
    by_cases hc : e.click <;> simp [processStep, hc, List.filter_cons]

theorem processLoop_heatmap (mx my gs : Int) {gw gh : ℕ} (hgw : 1 ≤ gw) (hgh : 1 ≤ gh)
    (data : List MouseEvent) (s : LoopState) (hdims : GridDims s.heatmap gh gw) :
    GridDims (processLoop mx my gs gw gh data s).heatmap gh gw ∧
    gridSum (processLoop mx my gs gw gh data s).heatmap
      = gridSum s.heatmap + (data.length : ℚ) := by
  induction data generalizing s with
  | nil => simpa [processLoop] using hdims
  | cons e rest ih =>
    simp only [processLoop, List.foldl_cons] at *
    have hy := gridIndex_lt e.y my gs gh hgh
    have hx := gridIndex_lt e.x mx gs gw hgw
    have hstep : (processStep mx my gs gw gh s e).heatmap
        = gridAdd s.heatmap (gridIndex e.y my gs gh) (gridIndex e.x mx gs gw) 1 := rfl
    have hdims' : GridDims (processStep mx my gs gw gh s e).heatmap gh gw := by
      rw [hstep]; exact gridAdd_dims _ _ _ hdims hy
    obtain ⟨hd, hs⟩ := ih (processStep mx my gs gw gh s e) hdims'
    refine ⟨hd, ?_⟩
    rw [hs, hstep, gridSum_gridAdd _ _ _ hdims hy hx, List.length_cons]
    push_cast
    ring

/-- The pending previous timestamp is no later than the first remaining
event (the loop invariant tying `prev_timestamp` to a time-ordered tail). -/
def prevLE : Option ℚ → List MouseEvent → Prop
  | some t, e :: _ => t ≤ e.timestamp
  | _, _ => True

theorem zeroGrid_nonneg (rows cols : ℕ) : GridNonneg (zeroGrid rows cols) := by
  intro row h v hv
  rw [List.eq_of_mem_replicate h] at hv
  rw [List.eq_of_mem_replicate hv]

theorem prevLE_of_chain (e : MouseEvent) (rest : List MouseEvent)
    (hchain : List.Chain' (fun a b => a.timestamp ≤ b.timestamp) (e :: rest)) :
    prevLE (some e.timestamp) rest := by
  cases rest with
  | nil => trivial
  | cons f t => exact (List.chain'_cons.mp hchain).1

theorem processLoop_hesitation (mx my gs : Int) {gw gh : ℕ} (hgw : 1 ≤ gw) (hgh : 1 ≤ gh)
    (data : List MouseEvent) (s : LoopState) (hdims : GridDims s.hesitation_map gh gw) :
    GridDims (processLoop mx my gs gw gh data s).hesitation_map gh gw ∧
    gridSum (processLoop mx my gs gw gh data s).hesitation_map
      = gridSum s.hesitation_map + dwellFrom s.prev_timestamp data ∧
    (GridNonneg s.hesitation_map → prevLE s.prev_timestamp data →
      List.Chain' (fun a b => a.timestamp ≤ b.timestamp) data →
      GridNonneg (processLoop mx my gs gw gh data s).hesitation_map) := by
  induction data generalizing s with
  | nil => exact ⟨hdims, by simp [processLoop, dwellFrom], fun hn _ _ => by simpa [processLoop]⟩
  | cons e rest ih =>
    simp only [processLoop, List.foldl_cons] at *
    have hy := gridIndex_lt e.y my gs gh hgh
    have hx := gridIndex_lt e.x mx gs gw hgw
    have hprev' : (processStep mx my gs gw gh s e).prev_timestamp = some e.timestamp := rfl
    rcases hp : s.prev_timestamp with _ | t
    · have hhes : (processStep mx my gs gw gh s e).hesitation_map = s.hesitation_map := by
        simp [processStep, hp]
      obtain ⟨hd1, hd2, hd3⟩ := ih (processStep mx my gs gw gh s e) (by rw [hhes]; exact hdims)
      refine ⟨hd1, ?_, ?_⟩
      · rw [hd2, hhes, hprev']
        simp [dwellFrom]
      · intro hn _ hchain
        exact hd3 (by rw [hhes]; exact hn)
          (by rw [hprev']; exact prevLE_of_chain e rest hchain) hchain.tail
    · by_cases hsp : e.speed < 100
      · have hhes : (processStep mx my gs gw gh s e).hesitation_map
            = gridAdd s.hesitation_map (gridIndex e.y my gs gh) (gridIndex e.x mx gs gw)
                (e.timestamp - t) := by
          simp [processStep, hp, hsp]
        obtain ⟨hd1, hd2, hd3⟩ := ih (processStep mx my gs gw gh s e)
          (by rw [hhes]; exact gridAdd_dims _ _ _ hdims hy)
        refine ⟨hd1, ?_, ?_⟩
        · rw [hd2, hhes, gridSum_gridAdd _ _ _ hdims hy hx, hprev']
          simp [dwellFrom, hsp]
          ring
        · intro hn hple hchain
          have hts : t ≤ e.timestamp := hple
          exact hd3 (by rw [hhes]; exact gridAdd_nonneg hn (by linarith))
            (by rw [hprev']; exact prevLE_of_chain e rest hchain) hchain.tail
      · have hhes : (processStep mx my gs gw gh s e).hesitation_map = s.hesitation_map := by
          simp [processStep, hp, hsp]
        obtain ⟨hd1, hd2, hd3⟩ := ih (processStep mx my gs gw gh s e) (by rw [hhes]; exact hdims)
        refine ⟨hd1, ?_, ?_⟩
        · rw [hd2, hhes, hprev']
          simp [dwellFrom, hsp]
        · intro hn _ hchain
          exact hd3 (by rw [hhes]; exact hn)
            (by rw [hprev']; exact prevLE_of_chain e rest hchain) hchain.tail

/-! ### Claim theorems: aggregator -/

/-- C1: for every non-empty event stream (and positive cell size), the sum
of all heatmap (density grid) cells equals the number of events: every
event is counted exactly once, its clamped grid index always landing in
bounds. -/
theorem heatmap_sum_eq_length (sqrtF : ℚ → ℚ) (data : List MouseEvent) (grid_size : Int)
    (hd : data ≠ []) (hg : 0 < grid_size) :
    gridSum (process_data sqrtF data grid_size).heatmap = (data.length : ℚ) := by
  match data, hd with
  | e :: rest, _ =>
    simp only [process_data]
    rw [(processLoop_heatmap _ _ _ (one_le_toNat_max_one _) (one_le_toNat_max_one _)
      (e :: rest) _ (zeroGrid_dims _ _)).2, zeroGrid_sum]
    ring

theorem heatmap_sum_eq_length_witness :
    ([({ x := 0, y := 0, speed := 0, click := false, timestamp := 0 } : MouseEvent)] ≠ []
        ∧ (0:Int) < 50) ∧
      gridSum (process_data id
        [{ x := 0, y := 0, speed := 0, click := false, timestamp := 0 }] 50).heatmap = 1 :=
  ⟨⟨by decide, by decide⟩,
   by
    have h := heatmap_sum_eq_length id
      [{ x := 0, y := 0, speed := 0, click := false, timestamp := 0 }] 50 (by decide) (by decide)
    simpa using h⟩

/-- C2: aggregating an empty stream returns the canonical empty result —
zero-sized grids, empty speed/click/path lists, the all-zero `_empty_stats`
record, and default bounds `(0, 0, 1920, 1080)` — and never raises. -/
theorem process_data_empty_canonical (sqrtF : ℚ → ℚ) (grid_size : Int) :
    process_data sqrtF [] grid_size =
      { heatmap := [], hesitation_map := [], speed_data := [],
        click_positions := [], path := [],
        stats := { total_events := 0, total_clicks := 0, avg_speed := 0,
                   max_speed := 0, min_speed := 0, speed_std := 0, duration := 0,
                   distance_traveled := 0, acceleration_bursts := 0 },
        grid_size := grid_size, bounds := (0, 0, 1920, 1080) } := rfl

/-- C9: aggregating a single-event stream never raises and yields
`duration = 0`, `distance_traveled = 0` and `acceleration_bursts = 0`,
for every sqrt implementation and positive cell size. -/
theorem process_data_single_event (sqrtF : ℚ → ℚ) (e : MouseEvent) (grid_size : Int)
    (hg : 0 < grid_size) :
    (process_data sqrtF [e] grid_size).stats.duration = 0 ∧
    (process_data sqrtF [e] grid_size).stats.distance_traveled = 0 ∧
    (process_data sqrtF [e] grid_size).stats.acceleration_bursts = 0 :=
  ⟨rfl, rfl, rfl⟩

theorem process_data_single_event_witness :
    (0:Int) < 50 ∧
      (process_data id [{ x := 0, y := 0, speed := 0, click := false, timestamp := 0 }] 50).stats.duration = 0 :=
  ⟨by decide,
   (process_data_single_event id
     { x := 0, y := 0, speed := 0, click := false, timestamp := 0 } 50 (by decide)).1⟩

/-- C4: for every time-ordered input stream (and positive cell size), every
cell of the hesitation grid is nonnegative, and the accumulated dwell is
exactly `dwellFrom none data`: the sum over consecutive pairs within this
one stream whose arriving event has speed `< 100` of the timestamp gap —
the grid starts from zero on every call, so nothing crosses aggregation
calls. -/
theorem hesitation_nonneg_and_within_stream (sqrtF : ℚ → ℚ) (data : List MouseEvent)
    (grid_size : Int) (hg : 0 < grid_size)
    (hchain : List.Chain' (fun a b => a.timestamp ≤ b.timestamp) data) :
    GridNonneg (process_data sqrtF data grid_size).hesitation_map ∧
    gridSum (process_data sqrtF data grid_size).hesitation_map = dwellFrom none data := by
  cases data with
  | nil =>
    refine ⟨?_, by simp [process_data, gridSum, dwellFrom]⟩
    intro row h
    simp [process_data] at h
  | cons e rest =>
    simp only [process_data]
    refine ⟨(processLoop_hesitation _ _ _ (one_le_toNat_max_one _) (one_le_toNat_max_one _)
      (e :: rest) _ (zeroGrid_dims _ _)).2.2 (zeroGrid_nonneg _ _) trivial hchain, ?_⟩
    rw [(processLoop_hesitation _ _ _ (one_le_toNat_max_one _) (one_le_toNat_max_one _)
      (e :: rest) _ (zeroGrid_dims _ _)).2.1]
    simp [zeroGrid_sum]

theorem hesitation_nonneg_and_within_stream_witness :
    ((0:Int) < 50 ∧
      List.Chain' (fun a b => a.timestamp ≤ b.timestamp)
        [({ x := 0, y := 0, speed := 0, click := false, timestamp := 0 } : MouseEvent),
         { x := 10, y := 0, speed := 50, click := false, timestamp := 1 }]) ∧
    gridSum (process_data id
        [{ x := 0, y := 0, speed := 0, click := false, timestamp := 0 },
         { x := 10, y := 0, speed := 50, click := false, timestamp := 1 }] 50).hesitation_map
      = dwellFrom none
        [{ x := 0, y := 0, speed := 0, click := false, timestamp := 0 },
         { x := 10, y := 0, speed := 50, click := false, timestamp := 1 }] :=
  ⟨⟨by decide, by norm_num [List.chain'_cons]⟩,
   (hesitation_nonneg_and_within_stream id
      [{ x := 0, y := 0, speed := 0, click := false, timestamp := 0 },
       { x := 10, y := 0, speed := 50, click := false, timestamp := 1 }] 50
      (by decide) (by norm_num [List.chain'_cons])).2⟩

/-- C10: the aggregate result is internally consistent for every stream:
`path` has one `(x, y)` entry per event in stream order, `speed_data` one
entry per event, `stats.total_events` equals the stream length, and
`click_positions` lists exactly the click events in stream order, so its
length is `stats.total_clicks`. -/
theorem process_data_internally_consistent (sqrtF : ℚ → ℚ) (data : List MouseEvent)
    (grid_size : Int) (hg : 0 < grid_size) :
    (process_data sqrtF data grid_size).path = data.map (fun e => (e.x, e.y)) ∧
    (process_data sqrtF data grid_size).speed_data = data.map (·.speed) ∧
    (process_data sqrtF data grid_size).stats.total_events = data.length ∧
    (process_data sqrtF data grid_size).click_positions
      = (data.filter (·.click)).map (fun e => (e.x, e.y)) ∧
    (process_data sqrtF data grid_size).click_positions.length
      = (process_data sqrtF data grid_size).stats.total_clicks := by
  cases data with
  | nil => exact ⟨rfl, rfl, rfl, rfl, rfl⟩
  | cons e rest =>
    simp only [process_data]
    refine ⟨?_, ?_, ?_, ?_, ?_⟩ <;>
      first
        | trivial
        | (rw [processLoop_path]; rfl)
        | (rw [processLoop_clicks]; rfl)
        | (rw [processLoop_clicks]; simp [_calculate_stats])

theorem process_data_internally_consistent_witness :
    (0:Int) < 50 ∧
      (process_data id [{ x := 3, y := 4, speed := 1, click := true, timestamp := 2 }] 50).path
        = [((3:Int), (4:Int))] :=
  ⟨by decide,
   by
    have h := (process_data_internally_consistent id
      [{ x := 3, y := 4, speed := 1, click := true, timestamp := 2 }] 50 (by decide)).1
    simpa using h⟩

/-! ### HesitationRanker lemmas (C3) -/

instance (flat : List ℚ) : IsTotal ℕ (ascIdxLe flat) := by
  constructor
  intro i j
  unfold ascIdxLe
  rcases lt_trichotomy (flat.getD i 0) (flat.getD j 0) with h | h | h
  · exact Or.inl (Or.inl h)
  · rcases Nat.le_total i j with hij | hij
    · exact Or.inl (Or.inr ⟨h, hij⟩)
    · exact Or.inr (Or.inr ⟨h.symm, hij⟩)
  · exact Or.inr (Or.inl h)

instance (flat : List ℚ) : IsTrans ℕ (ascIdxLe flat) := by
  constructor
  intro i j k hij hjk
  unfold ascIdxLe at *
  rcases hij with h1 | ⟨h1, h1'⟩ <;> rcases hjk with h2 | ⟨h2, h2'⟩
  · exact Or.inl (h1.trans h2)
  · exact Or.inl (h2 ▸ h1)
  · exact Or.inl (h1 ▸ h2)
  · exact Or.inr ⟨h1.trans h2, h1'.trans h2'⟩

theorem argsort_isArgsortOf (l : List ℚ) : IsArgsortOf l (argsort l) := by
  refine ⟨List.perm_insertionSort _ _, ?_⟩
  have h := List.sorted_insertionSort (ascIdxLe l) (List.range l.length)
  unfold List.Sorted at *
  refine h.imp ?_
  intro a b hab
  rcases hab with h1 | ⟨h1, _⟩
  · exact le_of_lt h1
  · exact le_of_eq h1

theorem zonesFoldl_eq (flat : List ℚ) (cols : ℕ) (idxs : List ℕ)
    (acc : List (ℕ × ℕ × ℚ)) :
    idxs.foldl
      (fun zones idx =>
        let y := idx / cols
        let x := idx % cols
        let dwell := flat.getD idx 0
        if 0 < dwell then zones ++ [(x, y, dwell)] else zones) acc
    = acc ++ (idxs.filter (fun i => decide (0 < flat.getD i 0))).map
        (fun i => (i % cols, i / cols, flat.getD i 0)) := by
  induction idxs generalizing acc with
  | nil => simp
  | cons i rest ih =>
    simp only [List.foldl_cons]
    by_cases h : 0 < flat.getD i 0
    · rw [if_pos h, ih, List.filter_cons, if_pos (decide_eq_true h),
        List.map_cons, List.append_assoc, List.singleton_append]
    · rw [if_neg h, ih, List.filter_cons, if_neg (by simpa using h)]

theorem countP_range_getD (flat : List ℚ) :
    List.countP (fun i => decide (0 < flat.getD i 0)) (List.range flat.length)
      = ((flat.filter (fun q => decide (0 < q))).length) := by
  induction flat using List.reverseRecOn with
  | nil => simp
  | append_singleton l a ih =>
    rw [List.length_append, List.length_singleton, List.range_succ,
      List.countP_append, List.filter_append, List.length_append]
    congr 1
    · rw [← ih]
      apply List.countP_congr
      intro i hi
      have hlt : i < l.length := List.mem_range.mp hi
      rw [List.getD_append _ _ _ _ hlt]
    · have hget : (l ++ [a]).getD l.length 0 = a := by
        rw [List.getD_append_right]
        · simp
        · exact le_refl _
      simp only [List.countP_cons, List.countP_nil, hget, List.filter_cons,
        List.filter_nil]
      by_cases ha : 0 < a <;> simp [ha]

/-- C3 (amended): for every argsort implementation meeting numpy's contract
(`IsArgsortOf`: some index permutation ascending by value — the tie order
among equal dwell values is unspecified, since the default `np.argsort` is
not stable), `get_hesitation_zones` flattens the hesitation grid, sorts the
flat indices descending by dwell, takes the first `n`, filters out
zero-dwell entries and maps each remaining flattened index back to
`(gridX, gridY)` — witnessed by the explicit descending index permutation —
and consequently the output is sorted descending by dwell, contains no
zero-dwell entry, has at most `n` entries and at most as many entries as
there are positive cells, and is empty for an empty grid. -/
theorem hesitation_zones_ranked (argsortF : List ℚ → List ℕ)
    (hsort : ∀ l, IsArgsortOf l (argsortF l)) (g : Grid) (n : ℕ) :
    (∃ idxs : List ℕ,
      idxs.Perm (List.range (g.flatten).length) ∧
      List.Sorted (fun i j => (g.flatten).getD j 0 ≤ (g.flatten).getD i 0) idxs ∧
      get_hesitation_zones argsortF g n
        = ((idxs.take n).filter (fun i => decide (0 < (g.flatten).getD i 0))).map
            (fun i => (i % (g.headD []).length, i / (g.headD []).length,
              (g.flatten).getD i 0))) ∧
    List.Sorted (fun a b : ℕ × ℕ × ℚ => b.2.2 ≤ a.2.2)
      (get_hesitation_zones argsortF g n) ∧
    (∀ z ∈ get_hesitation_zones argsortF g n, 0 < z.2.2) ∧
    (get_hesitation_zones argsortF g n).length ≤ n ∧
    (get_hesitation_zones argsortF g n).length
      ≤ ((g.flatten).filter (fun q => decide (0 < q))).length ∧
    ((g.flatten).length = 0 → get_hesitation_zones argsortF g n = []) := by
  obtain ⟨hperm0, hsorted0⟩ := hsort (g.flatten)
  by_cases h : (g.flatten).length = 0
  · have hz : get_hesitation_zones argsortF g n = [] := by
      unfold get_hesitation_zones
      rw [if_pos h]
    rw [hz]
    exact ⟨⟨[], by simp [h], by simp, by simp⟩, by simp, by simp, by simp,
      by simp, fun _ => rfl⟩
  · have hout : get_hesitation_zones argsortF g n
        = ((((argsortF (g.flatten)).reverse).take n).filter
            (fun i => decide (0 < (g.flatten).getD i 0))).map
            (fun i => (i % (g.headD []).length, i / (g.headD []).length,
              (g.flatten).getD i 0)) := by
      unfold get_hesitation_zones
      rw [if_neg h, zonesFoldl_eq, List.nil_append]
    have hperm : ((argsortF (g.flatten)).reverse).Perm (List.range (g.flatten).length) :=
      (List.reverse_perm _).trans hperm0
    have hsorted : List.Sorted (fun i j => (g.flatten).getD j 0 ≤ (g.flatten).getD i 0)
        ((argsortF (g.flatten)).reverse) := by
      unfold List.Sorted at *
      rw [List.pairwise_reverse]
      exact hsorted0
    have hsub : ((((argsortF (g.flatten)).reverse).take n).filter
          (fun i => decide (0 < (g.flatten).getD i 0))).Sublist
        ((argsortF (g.flatten)).reverse) :=
      (List.filter_sublist _).trans (List.take_sublist _ _)
    refine ⟨⟨(argsortF (g.flatten)).reverse, hperm, hsorted, hout⟩, ?_, ?_, ?_, ?_,
      fun h0 => absurd h0 h⟩
    · rw [hout]
      unfold List.Sorted at *
      rw [List.pairwise_map]
      exact (List.Pairwise.sublist hsub hsorted).imp (fun hab => hab)
    · rw [hout]
      intro z hz
      rcases List.mem_map.mp hz with ⟨i, hi, rfl⟩
      have := (List.mem_filter.mp hi).2
      simpa using this
    · rw [hout, List.length_map]
      exact (List.length_filter_le _ _).trans (List.length_take_le _ _)
    · rw [hout, List.length_map]
      calc ((((argsortF (g.flatten)).reverse).take n).filter
              (fun i => decide (0 < (g.flatten).getD i 0))).length
          ≤ (((argsortF (g.flatten)).reverse).filter
              (fun i => decide (0 < (g.flatten).getD i 0))).length :=
            ((List.take_sublist n _).filter _).length_le
        _ = List.countP (fun i => decide (0 < (g.flatten).getD i 0))
              ((argsortF (g.flatten)).reverse) :=
            (List.countP_eq_length_filter _ _).symm
        _ = List.countP (fun i => decide (0 < (g.flatten).getD i 0))
              (List.range (g.flatten).length) :=
            hperm.countP_eq _
        _ = ((g.flatten).filter (fun q => decide (0 < q))).length :=
            countP_range_getD (g.flatten)

theorem hesitation_zones_ranked_witness :
    (∀ l, IsArgsortOf l (argsort l)) ∧
    (get_hesitation_zones argsort [[0, 3], [7, 0]] 2).length ≤ 2 :=
  ⟨argsort_isArgsortOf,
   (hesitation_zones_ranked argsort argsort_isArgsortOf [[0, 3], [7, 0]] 2).2.2.2.1⟩

/-- C3 counterexample: on the grid `[[5, 5]]` both cells tie at dwell 5.
Two cells put `np.argsort` in its deterministic regime (stable insertion
sort, the `argsort` realization), so the code's reversed argsort emits
flattened index 1 first, while the claimed ascending tie-break predicts
index 0 first: the claim's output order is wrong. -/
theorem hesitation_zones_tie_counterexample :
    get_hesitation_zones argsort [[5, 5]] 2 = [(1, 0, 5), (0, 0, 5)] ∧
    hesitation_zones_claimed [[5, 5]] 2 = [(0, 0, 5), (1, 0, 5)] ∧
    get_hesitation_zones argsort [[5, 5]] 2 ≠ hesitation_zones_claimed [[5, 5]] 2 := by
  refine ⟨?_, ?_, ?_⟩ <;> decide

/-! ### Claim theorems: capture (`src/logger.py`) -/

/-- C5: when the platform hook install fails, `start` does propagate the
failure to its caller (the exception escapes as `.error`, no silent no-op) —
but the capture state it leaves behind already has `is_running = true`,
because the flag is raised before the install is attempted; `isRunning()`
reports running after the failed start instead of the unchanged
`not running` the spec requires. -/
theorem start_hook_failure_leaves_running :
    MouseLogger.start_with_hook (MouseLogger.init (1/20)) false
      = Except.error { data := [], is_running := true, sample_rate := 1/20,
                       last_sample_time := 0, last_position := (0, 0),
                       last_timestamp := 0 } := rfl

/-- C6 counterexample: `start` on a non-running logger does NOT reset the
last position ((5, 5) survives, whereas a reset would restore the `__init__`
value (0, 0)); only `_last_timestamp` and `_last_sample_time` are reset. -/
theorem start_keeps_last_position :
    (MouseLogger.start
        { data := [], is_running := false, sample_rate := 1/20,
          last_sample_time := 7, last_position := (5, 5), last_timestamp := 9 }).last_position
      = (5, 5) ∧
    ((5:Int), (5:Int)) ≠ ((0:Int), (0:Int)) := by decide

/-- C6 (amended): `start` is idempotent (running ⇒ no-op), and on a
non-running logger it resets the two timing fields `last_timestamp` and
`last_sample_time` to 0 while leaving `last_position` (and the buffered
data) unchanged; speed computation still restarts cleanly because the zero
`last_timestamp` sentinel forces the first computed speed to 0. -/
theorem start_spec (s : LoggerState) :
    (s.is_running = true → MouseLogger.start s = s) ∧
    (s.is_running = false →
      (MouseLogger.start s).is_running = true ∧
      (MouseLogger.start s).last_timestamp = 0 ∧
      (MouseLogger.start s).last_sample_time = 0 ∧
      (MouseLogger.start s).last_position = s.last_position ∧
      (MouseLogger.start s).data = s.data ∧
      ∀ (sqrtF : ℚ → ℚ) (x y : Int) (t : ℚ),
        MouseLogger._calculate_speed sqrtF (MouseLogger.start s) x y t = 0) := by
  constructor
  · intro h
    simp [MouseLogger.start, h]
  · intro h
    refine ⟨by simp [MouseLogger.start, h], by simp [MouseLogger.start, h],
      by simp [MouseLogger.start, h], by simp [MouseLogger.start, h],
      by simp [MouseLogger.start, h], ?_⟩
    intro sqrtF x y t
    simp [MouseLogger.start, MouseLogger._calculate_speed, h]

theorem start_spec_witness :
    MouseLogger.start
        { data := [], is_running := true, sample_rate := 1/20,
          last_sample_time := 7, last_position := (5, 5), last_timestamp := 9 }
      = { data := [], is_running := true, sample_rate := 1/20,
          last_sample_time := 7, last_position := (5, 5), last_timestamp := 9 } ∧
    (MouseLogger.start (MouseLogger.init (1/20))).last_timestamp = 0 :=
  ⟨(start_spec _).1 rfl, ((start_spec (MouseLogger.init (1/20))).2 rfl).2.1⟩

/-- C7: a move notification arriving less than `sample_rate` after the last
accepted sample is discarded with no event recorded and no state change at
all, while a press notification is never rate-limited: it always appends
exactly one click event (with the speed computed against the last accepted
sample) and updates `last_position` and `last_timestamp` but leaves
`last_sample_time` alone, so a click cannot suppress the next move sample. -/
theorem move_rate_limited_click_not (sqrtF : ℚ → ℚ) (s : LoggerState) (x y : Int) (t : ℚ) :
    (t - s.last_sample_time < s.sample_rate → MouseLogger._on_move sqrtF s x y t = s) ∧
    (MouseLogger._on_click sqrtF s x y true t).data
      = s.data ++ [{ x := x, y := y,
                     speed := MouseLogger.round2 (MouseLogger._calculate_speed sqrtF s x y t),
                     click := true, timestamp := t }] ∧
    (MouseLogger._on_click sqrtF s x y true t).last_position = (x, y) ∧
    (MouseLogger._on_click sqrtF s x y true t).last_timestamp = t ∧
    (MouseLogger._on_click sqrtF s x y true t).last_sample_time = s.last_sample_time := by
  refine ⟨?_, rfl, rfl, rfl, rfl⟩
  intro h
  simp [MouseLogger._on_move, h]

theorem move_rate_limited_click_not_witness :
    MouseLogger._on_move id (MouseLogger.init (1/20)) 3 4 (1/100) = MouseLogger.init (1/20) ∧
    (MouseLogger._on_click id (MouseLogger.init (1/20)) 3 4 true (1/100)).last_sample_time
      = (MouseLogger.init (1/20)).last_sample_time :=
  ⟨(move_rate_limited_click_not id (MouseLogger.init (1/20)) 3 4 (1/100)).1
      (by norm_num [MouseLogger.init]),
   (move_rate_limited_click_not id (MouseLogger.init (1/20)) 3 4 (1/100)).2.2.2.2⟩

theorem round2_nonneg {q : ℚ} (h : 0 ≤ q) : 0 ≤ MouseLogger.round2 q := by
  unfold MouseLogger.round2
  have h1 : (0:ℤ) ≤ round (q * 100) := by
    rw [round_eq, Int.le_floor]
    push_cast
    linarith
  positivity

/-- C8: speed computation is totally guarded: it returns 0 when there is no
prior accepted sample (`last_timestamp = 0` sentinel) or when the elapsed
time is ≤ 0, and otherwise returns the distance from the last position over
the (strictly positive) elapsed time; assuming the sqrt implementation is
nonnegative, the result is always ≥ 0, and every event recorded by
`_on_move` / `_on_click` carries a nonnegative speed. -/
theorem calculate_speed_guarded (sqrtF : ℚ → ℚ) (hsq : ∀ q, 0 ≤ q → 0 ≤ sqrtF q)
    (s : LoggerState) (x y : Int) (t : ℚ) :
    (s.last_timestamp = 0 → MouseLogger._calculate_speed sqrtF s x y t = 0) ∧
    (t - s.last_timestamp ≤ 0 → MouseLogger._calculate_speed sqrtF s x y t = 0) ∧
    (s.last_timestamp ≠ 0 → 0 < t - s.last_timestamp →
      MouseLogger._calculate_speed sqrtF s x y t
        = sqrtF ((((x - s.last_position.1) * (x - s.last_position.1)
            + (y - s.last_position.2) * (y - s.last_position.2) : Int) : ℚ))
          / (t - s.last_timestamp)) ∧
    0 ≤ MouseLogger._calculate_speed sqrtF s x y t ∧
    (∀ e ∈ (MouseLogger._on_move sqrtF s x y t).data, e ∈ s.data ∨ 0 ≤ e.speed) ∧
    (∀ e ∈ (MouseLogger._on_click sqrtF s x y true t).data, e ∈ s.data ∨ 0 ≤ e.speed) := by
  have hnn : 0 ≤ MouseLogger._calculate_speed sqrtF s x y t := by
    unfold MouseLogger._calculate_speed
    by_cases h0 : s.last_timestamp = 0
    · simp [h0]
    · by_cases hdt : t - s.last_timestamp ≤ 0
      · simp [h0, hdt]
      · simp only [h0, hdt, if_neg, if_false]
        apply div_nonneg
        · exact hsq _ (by
            exact_mod_cast add_nonneg (mul_self_nonneg _) (mul_self_nonneg _))
        · linarith
  refine ⟨?_, ?_, ?_, hnn, ?_, ?_⟩
  · intro h
    simp [MouseLogger._calculate_speed, h]
  · intro h
    by_cases h0 : s.last_timestamp = 0 <;>
      simp [MouseLogger._calculate_speed, h0, h]
  · intro h0 hdt
    rw [MouseLogger._calculate_speed, if_neg h0, if_neg (by linarith)]
  · intro e he
    unfold MouseLogger._on_move at he
    by_cases hrl : t - s.last_sample_time < s.sample_rate
    · rw [if_pos hrl] at he
      exact Or.inl he
    · rw [if_neg hrl] at he
      rcases List.mem_append.mp he with h | h
      · exact Or.inl h
      · right
        rcases List.mem_singleton.mp h with rfl
        exact round2_nonneg hnn
  · intro e he
    unfold MouseLogger._on_click at he
    simp only [Bool.not_true, Bool.false_eq_true, if_false] at he
    rcases List.mem_append.mp he with h | h
    · exact Or.inl h
    · right
      rcases List.mem_singleton.mp h with rfl
      exact round2_nonneg hnn

theorem calculate_speed_guarded_witness :
    0 ≤ MouseLogger._calculate_speed id (MouseLogger.init (1/20)) 3 4 1 :=
  (calculate_speed_guarded id (fun _ h => h) (MouseLogger.init (1/20)) 3 4 1).2.2.2.1
